import Mathlib

/-!
Shallow embedding of the Ekot web app core (src/app.js): the day-scoped
broadcast store, the adaptive poll-interval computation, and the playback
state machine with its audio-focus keep-alive timer.  JS numbers that hold
epoch milliseconds are modelled as Int (getTime can in principle be
negative); minute counts and timer durations as Nat/Int as the arithmetic
requires; JS objects keyed by slot label as association lists whose
assignment replaces the first matching key.
-/

namespace Ekot

/-- A slot descriptor, mirroring one entry of CONFIG.SLOTS in src/app.js:
a label and the poll-start wall-clock time. -/
structure Slot where
  time : String
  pollStartHour : Nat
  pollStartMinute : Nat
deriving Repr, DecidableEq

/-- CONFIG.SLOTS from src/app.js lines 19-24. -/
def CONFIG_SLOTS : List Slot :=
  [ ⟨"08:00", 8, 20⟩, ⟨"12:30", 13, 0⟩, ⟨"16:45", 17, 5⟩, ⟨"17:45", 18, 10⟩ ]

/-- CONFIG.ACTIVE_WINDOW (minutes), compared against a possibly negative
minute difference, hence Int. -/
def ACTIVE_WINDOW : Int := 10

/-- CONFIG.EXTENDED_WINDOW (minutes). -/
def EXTENDED_WINDOW : Int := 30

/-- CONFIG.POLL_INTERVALS.ACTIVE in milliseconds. -/
def POLL_ACTIVE : Nat := 60000

/-- CONFIG.POLL_INTERVALS.EXTENDED in milliseconds. -/
def POLL_EXTENDED : Nat := 300000

/-- CONFIG.POLL_INTERVALS.IDLE in milliseconds. -/
def POLL_IDLE : Nat := 1800000

/-- CONFIG.AUDIO_FOCUS_TIMEOUT = 15 * 60 * 1000 milliseconds. -/
def AUDIO_FOCUS_TIMEOUT : Nat := 15 * 60 * 1000

/-- A broadcast record as built by parseRss (src/app.js lines 217-223):
title, publish timestamp (epoch milliseconds), audio URL, slot label. -/
structure Broadcast where
  title : String
  timestamp : Int
  audioUrl : String
  slot : String
deriving Repr, DecidableEq

/-- state.broadcasts: a JS object keyed by slot label, embedded as an
association list (insertion order preserved, keys unique in any object
produced by the program). -/
def Store : Type := List (String × Broadcast)

instance : DecidableEq Store := by
  unfold Store
  infer_instance

/-- Property access obj[k]: the value at the first occurrence of key k. -/
def storeGet : Store → String → Option Broadcast
  | [], _ => none
  | (k', b) :: rest, k => if k' = k then some b else storeGet rest k

/-- Property assignment obj[k] = b: replace the first binding of k, or
append a fresh one, as a JS object assignment does. -/
def storeSet : Store → String → Broadcast → Store
  | [], k, b => [(k, b)]
  | (k', b') :: rest, k, b =>
      if k' = k then (k, b) :: rest else (k', b') :: storeSet rest k b

/-- Object.assign(target, incoming) as used in updateBroadcasts
(src/app.js line 287): every incoming binding is written into the target
in order, unconditionally overwriting. -/
def objectAssign (st : Store) (incoming : Store) : Store :=
  incoming.foldl (fun acc e => storeSet acc e.1 e.2) st

/-- The keys of a store. -/
def storeKeys (st : Store) : List String := st.map Prod.fst

/-- A JS object never holds two bindings of the same key. -/
def storeWF (st : Store) : Prop := (storeKeys st).Nodup

instance (st : Store) : Decidable (storeWF st) := by
  unfold storeWF
  infer_instance

/-- The loop of findLatestBroadcast (src/app.js lines 344-350): walk the
slots, keeping the running maximum timestamp and its slot label. -/
def findLatestAux (bs : Store) : List Slot → Option String → Int → Option String
  | [], latest, _ => latest
  | s :: rest, latest, latestTimestamp =>
      match storeGet bs s.time with
      | some b =>
          if latestTimestamp < b.timestamp then
            findLatestAux bs rest (some s.time) b.timestamp
          else
            findLatestAux bs rest latest latestTimestamp
      | none => findLatestAux bs rest latest latestTimestamp

/-- findLatestBroadcast (src/app.js lines 340-353): running maximum
initialised to the sentinel 0, comparison with strict greater-than. -/
def findLatestBroadcast (bs : Store) : Option String :=
  findLatestAux bs CONFIG_SLOTS none 0

/-- The loop of calculatePollInterval (src/app.js lines 302-317): for each
slot in order whose broadcast is absent, classify the minute difference
against the active and extended windows; fall through otherwise. -/
def pollIntervalAux (currentMinutes : Int) (bs : Store) : List Slot → Nat
  | [] => POLL_IDLE
  | s :: rest =>
      let pollStartMinutes : Int := s.pollStartHour * 60 + s.pollStartMinute
      let diff := currentMinutes - pollStartMinutes
      if (storeGet bs s.time).isNone then
        if 0 ≤ diff ∧ diff ≤ ACTIVE_WINDOW then POLL_ACTIVE
        else if ACTIVE_WINDOW < diff ∧ diff ≤ EXTENDED_WINDOW then POLL_EXTENDED
        else pollIntervalAux currentMinutes bs rest
      else pollIntervalAux currentMinutes bs rest

/-- calculatePollInterval (src/app.js lines 297-320), with the current
Stockholm hour and minute passed in as the TimeSource reading. -/
def calculatePollInterval (now : Nat × Nat) (bs : Store) : Nat :=
  pollIntervalAux (now.1 * 60 + now.2 : Int) bs CONFIG_SLOTS

/-- Modelled from the spec (section 4.2): per-slot classification used to
restate computeInterval the way the spec words it — an absent slot yields
the ACTIVE interval when 0 ≤ diff ≤ ACTIVE_WINDOW, the EXTENDED interval
when ACTIVE_WINDOW < diff ≤ EXTENDED_WINDOW, and nothing otherwise. -/
def slotTier (currentMinutes : Int) (bs : Store) (s : Slot) : Option Nat :=
  if (storeGet bs s.time).isSome then none
  else
    let diff := currentMinutes - (s.pollStartHour * 60 + s.pollStartMinute : Int)
    if 0 ≤ diff ∧ diff ≤ ACTIVE_WINDOW then some POLL_ACTIVE
    else if ACTIVE_WINDOW < diff ∧ diff ≤ EXTENDED_WINDOW then some POLL_EXTENDED
    else none

/-- Modelled from the spec (section 4.2): the first slot in configured
order that yields a tier governs; with no qualifying slot the interval is
IDLE. -/
def computeIntervalSpec (now : Nat × Nat) (bs : Store) : Nat :=
  (CONFIG_SLOTS.findSome? (slotTier (now.1 * 60 + now.2 : Int) bs)).getD POLL_IDLE

/-- An error surfaced to the user through showStatus, classifying the
three user-visible playback failure messages in src/app.js. -/
inductive PErr where
  /-- showStatus on an absent slot or empty audioUrl (line 439). -/
  | noBroadcast : PErr
  /-- showStatus when the play promise rejects (lines 453 and 530). -/
  | playbackRejected : PErr
  /-- showStatus when toggle finds no broadcast at all (line 521). -/
  | noBroadcastsYet : PErr
deriving Repr, DecidableEq

/-- The mutable application state of src/app.js: the state object
(broadcasts, currentSlot, lastFetchDate, the two timer handles) together
with the observable audio-element state of the two players.  Pending
one-shot timers are modelled as lists of (handle, delay-ms) pairs so that
cancellation and single-instance claims are expressible; nextId is the
engine's handle counter. -/
structure AppState where
  broadcasts : Store
  currentSlot : Option String
  lastFetchDate : Option String
  pollTimer : Option Nat
  audioFocusTimer : Option Nat
  pollPending : List (Nat × Nat)
  focusPending : List (Nat × Nat)
  nextId : Nat
  audioSrc : String
  audioPaused : Bool
  silenceSrc : String
  silencePaused : Bool
deriving DecidableEq

/-- The playback status of the controller as the spec's state machine
names it, read off the audio element: no source loaded is Stopped, a
loaded paused source is Paused, a loaded playing source is Playing. -/
inductive PStatus where
  | stopped : PStatus
  | playing : PStatus
  | paused : PStatus
deriving Repr, DecidableEq

/-- Derived status of an application state. -/
def status (st : AppState) : PStatus :=
  if st.audioSrc = "" then .stopped
  else if st.audioPaused then .paused
  else .playing

/-- stopAudioFocusKeepAlive (src/app.js lines 502-509): cancel the focus
timer if its handle is set, null the handle, pause the silence player and
clear its source. -/
def stopAudioFocusKeepAlive (st : AppState) : AppState :=
  let st1 :=
    match st.audioFocusTimer with
    | some h =>
        { st with focusPending := st.focusPending.filter (fun e => e.1 ≠ h),
                  audioFocusTimer := none }
    | none => st
  { st1 with silencePaused := true, silenceSrc := "" }

/-- startAudioFocusKeepAlive (src/app.js lines 484-497): cancel any
previous keep-alive, start the silence player (sOk tells whether its play
promise resolves), and arm the focus timer for AUDIO_FOCUS_TIMEOUT. -/
def startAudioFocusKeepAlive (sOk : Bool) (st : AppState) : AppState :=
  let st1 := stopAudioFocusKeepAlive st
  let st2 := { st1 with silenceSrc := "assets/silence.wav", silencePaused := !sOk }
  { st2 with audioFocusTimer := some st2.nextId,
             focusPending := st2.focusPending ++ [(st2.nextId, AUDIO_FOCUS_TIMEOUT)],
             nextId := st2.nextId + 1 }

/-- stopPlayback (src/app.js lines 467-478): cancel the keep-alive, pause
the player, clear its source and the current slot.  The remaining lines
only rewrite presenter text and are outside the core. -/
def stopPlayback (st : AppState) : AppState :=
  let st1 := stopAudioFocusKeepAlive st
  { st1 with audioPaused := true, audioSrc := "", currentSlot := none }

/-- playBroadcast (src/app.js lines 436-462): reject with a status message
when the slot is absent or has an empty audioUrl; otherwise cancel the
keep-alive, set the current slot, load the source and request play.  ok
tells whether the play promise resolves; its rejection only logs and shows
a status message. -/
def playBroadcast (st : AppState) (slot : String) (ok : Bool) :
    AppState × Option PErr :=
  match storeGet st.broadcasts slot with
  | none => (st, some .noBroadcast)
  | some b =>
      if b.audioUrl = "" then (st, some .noBroadcast)
      else
        let st1 := stopAudioFocusKeepAlive st
        let st2 := { st1 with currentSlot := some slot,
                              audioSrc := b.audioUrl,
                              audioPaused := if ok then false else st1.audioPaused }
        (st2, if ok then none else some .playbackRejected)

/-- togglePlayPause (src/app.js lines 514-536): with no source loaded play
the latest broadcast (or report none); with a paused source cancel the
keep-alive and request play; with a playing source pause and arm the
keep-alive. -/
def togglePlayPause (st : AppState) (ok sOk : Bool) : AppState × Option PErr :=
  if st.audioSrc = "" then
    match findLatestBroadcast st.broadcasts with
    | some latestSlot => playBroadcast st latestSlot ok
    | none => (st, some .noBroadcastsYet)
  else if st.audioPaused then
    let st1 := stopAudioFocusKeepAlive st
    ({ st1 with audioPaused := if ok then false else st1.audioPaused },
     if ok then none else some .playbackRejected)
  else
    (startAudioFocusKeepAlive sOk { st with audioPaused := true }, none)

/-- resetForNewDay (src/app.js lines 166-172): empty the store, clear the
current slot, stamp today's date, and stop playback. -/
def resetForNewDay (today : String) (st : AppState) : AppState :=
  stopPlayback
    { st with broadcasts := [], currentSlot := none, lastFetchDate := some today }

/-- checkDayChange (src/app.js lines 177-184): when a date is stored and
differs from today, reset and report true; otherwise report false. -/
def checkDayChange (today : String) (st : AppState) : AppState × Bool :=
  match st.lastFetchDate with
  | some d => if d ≠ today then (resetForNewDay today st, true) else (st, false)
  | none => (st, false)

/-- updateBroadcasts (src/app.js lines 281-291): run the day check, then
merge the fetched broadcasts (none models a failed fetch or 304) and stamp
today's date. -/
def updateBroadcasts (today : String) (fetched : Option Store) (st : AppState) :
    AppState :=
  let st1 := (checkDayChange today st).1
  match fetched with
  | none => st1
  | some inc =>
      { st1 with broadcasts := objectAssign st1.broadcasts inc,
                 lastFetchDate := some today }

/-- schedulePoll (src/app.js lines 325-335): cancel the pending poll timer
if its handle is set, compute the interval, and arm a fresh one-shot
timer, storing its handle. -/
def schedulePoll (now : Nat × Nat) (st : AppState) : AppState :=
  let st1 :=
    match st.pollTimer with
    | some h => { st with pollPending := st.pollPending.filter (fun e => e.1 ≠ h) }
    | none => st
  let interval := calculatePollInterval now st1.broadcasts
  { st1 with pollTimer := some st1.nextId,
             pollPending := st1.pollPending ++ [(st1.nextId, interval)],
             nextId := st1.nextId + 1 }

/-- The events that drive the core: presenter intents, audio-element
events, timer firings and the midnight interval tick.  Each carries the
environment data its handler reads (fetch outcome, clock reading, play
promise outcomes). -/
inductive Ev where
  /-- A tile click: playBroadcast slot (src/app.js line 409). -/
  | playIntent (slot : String) (ok : Bool) : Ev
  /-- The play-pause button: togglePlayPause (line 618). -/
  | toggle (ok sOk : Bool) : Ev
  /-- The platform stop action: stopPlayback (line 674). -/
  | stopIntent : Ev
  /-- The audio ended event (lines 601-606); fires only while playing. -/
  | ended : Ev
  /-- The audio error event: stopPlayback (lines 608-611). -/
  | audioError : Ev
  /-- Pending focus timer h fires (lines 492-496). -/
  | focusFire (h : Nat) : Ev
  /-- Pending poll timer h fires: updateBroadcasts then schedulePoll
  (lines 331-334). -/
  | pollFire (h : Nat) (today : String) (fetched : Option Store)
      (now : Nat × Nat) : Ev
  /-- The midnight setInterval tick (lines 722-726): on a day change,
  updateBroadcasts. -/
  | dayTick (today : String) (fetched : Option Store) : Ev
deriving DecidableEq

/-- One step of the event loop.  A timer firing is enabled only while that
timer instance is pending; the engine removes it from the pending set
before running its callback.  The ended event is enabled only while the
audio element is actually playing. -/
def stepEv (st : AppState) : Ev → AppState
  | .playIntent slot ok => (playBroadcast st slot ok).1
  | .toggle ok sOk => (togglePlayPause st ok sOk).1
  | .stopIntent => stopPlayback st
  | .ended =>
      if st.audioSrc ≠ "" ∧ st.audioPaused = false then
        { st with currentSlot := none, audioPaused := true }
      else st
  | .audioError => stopPlayback st
  | .focusFire h =>
      if st.focusPending.any (fun e => e.1 = h) then
        stopPlayback (stopAudioFocusKeepAlive
          { st with focusPending := st.focusPending.filter (fun e => e.1 ≠ h) })
      else st
  | .pollFire h today fetched now =>
      if st.pollPending.any (fun e => e.1 = h) then
        schedulePoll now (updateBroadcasts today fetched
          { st with pollPending := st.pollPending.filter (fun e => e.1 ≠ h) })
      else st
  | .dayTick today fetched =>
      let p := checkDayChange today st
      if p.2 then updateBroadcasts today fetched p.1 else p.1

/-- init (src/app.js lines 732-766) restricted to the core: stamp today's
date, fetch once with cache-busting and merge, then start polling.  The
state before init mirrors the literal initialisers of the state object. -/
def initState (today : String) (fetched : Option Store) (now : Nat × Nat) :
    AppState :=
  let st0 : AppState :=
    { broadcasts := [], currentSlot := none, lastFetchDate := none,
      pollTimer := none, audioFocusTimer := none,
      pollPending := [], focusPending := [], nextId := 0,
      audioSrc := "", audioPaused := true,
      silenceSrc := "", silencePaused := true }
  schedulePoll now (updateBroadcasts today fetched
    { st0 with lastFetchDate := some today })

/-- The states the event loop can reach from a fresh page load. -/
inductive Reachable : AppState → Prop where
  | boot : ∀ today fetched now, Reachable (initState today fetched now)
  | next : ∀ {st} (e : Ev), Reachable st → Reachable (stepEv st e)

/-- The focus-timer half of the state-machine guarantee: whenever the
focus-timer handle is set, a source is loaded and the player is paused. -/
def FocusInv (st : AppState) : Prop :=
  st.audioFocusTimer.isSome = true → (st.audioSrc ≠ "" ∧ st.audioPaused = true)

/-- Single-instance discipline for one timer kind: either nothing is
pending, or exactly one instance is pending, its id is the stored handle,
and the id is below the engine's counter. -/
def TInv (pend : List (Nat × Nat)) (handle : Option Nat) (nid : Nat) : Prop :=
  pend = [] ∨ ∃ h d, pend = [(h, d)] ∧ handle = some h ∧ h < nid

/-- Both timers follow the single-instance discipline. -/
def TimerInv (st : AppState) : Prop :=
  TInv st.pollPending st.pollTimer st.nextId ∧
  TInv st.focusPending st.audioFocusTimer st.nextId

/-- The inductive invariant of the event loop. -/
def Inv (st : AppState) : Prop := FocusInv st ∧ TimerInv st

/-- A feed answer holding one playable 08:00 broadcast. -/
def demoFetched : Store :=
  [("08:00", ⟨"Ekot 08:00", 100, "https://sr.se/a.mp3", "08:00"⟩)]

/-- The state right after a page load that fetched the 08:00 broadcast. -/
def demoBoot : AppState := initState "2026-01-05" (some demoFetched) (8, 30)

/-- demoBoot after the user clicked the 08:00 tile and play succeeded. -/
def demoPlaying : AppState := stepEv demoBoot (.playIntent "08:00" true)

/-- demoPlaying after the user pressed pause: the keep-alive is armed. -/
def demoPaused : AppState := stepEv demoPlaying (.toggle true true)

/-- A non-empty store whose only broadcast carries the publish timestamp
0, the sentinel value of findLatestBroadcast's running maximum. -/
def cexStoreZero : Store :=
  [("08:00", ⟨"Ekot 08:00", 0, "https://sr.se/a.mp3", "08:00"⟩)]

/-- A stopped application state holding one playable broadcast, used to
exercise a rejected play request. -/
def cexPlayState : AppState :=
  { broadcasts := [("08:00", ⟨"Ekot 08:00", 100, "https://sr.se/a.mp3", "08:00"⟩)],
    currentSlot := none, lastFetchDate := some "2026-01-05",
    pollTimer := none, audioFocusTimer := none,
    pollPending := [], focusPending := [], nextId := 0,
    audioSrc := "", audioPaused := true,
    silenceSrc := "", silencePaused := true }

section StoreLemmas

lemma storeGet_storeSet_self (st : Store) (k : String) (b : Broadcast) :
    storeGet (storeSet st k b) k = some b := by
  induction st with
  | nil => simp [storeSet, storeGet]
  | cons e rest ih =>
      obtain ⟨k', b'⟩ := e
      by_cases h : k' = k
      · simp [storeSet, h, storeGet]
      · simp [storeSet, h, storeGet, ih]

lemma storeGet_storeSet_other (st : Store) (k k' : String) (b : Broadcast)
    (h : k ≠ k') : storeGet (storeSet st k b) k' = storeGet st k' := by
  induction st with
  | nil => simp [storeSet, storeGet, h]
  | cons e rest ih =>
      obtain ⟨k0, b0⟩ := e
      by_cases h0 : k0 = k
      · subst h0
        simp [storeSet, storeGet, h]
      · by_cases h1 : k0 = k'
        · simp [storeSet, storeGet, h0, h1, Ne.symm h]
        · simp [storeSet, storeGet, h0, h1, ih]

lemma storeKeys_storeSet (st : Store) (k : String) (b : Broadcast) :
    storeKeys (storeSet st k b) =
      if k ∈ storeKeys st then storeKeys st else storeKeys st ++ [k] := by
  induction st with
  | nil => simp [storeSet, storeKeys]
  | cons e rest ih =>
      obtain ⟨k0, b0⟩ := e
      by_cases h0 : k0 = k
      · subst h0
        simp [storeSet, storeKeys]
      · have hcons : storeSet ((k0, b0) :: rest) k b = (k0, b0) :: storeSet rest k b := by
          simp [storeSet, h0]
        have hk1 : storeKeys ((k0, b0) :: storeSet rest k b)
            = k0 :: storeKeys (storeSet rest k b) := rfl
        have hk2 : storeKeys ((k0, b0) :: rest) = k0 :: storeKeys rest := rfl
        rw [hcons, hk1, hk2, ih]
        by_cases hm : k ∈ storeKeys rest
        · simp [hm, Ne.symm h0]
        · simp [hm, Ne.symm h0]

lemma storeWF_storeSet (st : Store) (k : String) (b : Broadcast)
    (h : storeWF st) : storeWF (storeSet st k b) := by
  unfold storeWF at h ⊢
  rw [storeKeys_storeSet]
  by_cases hm : k ∈ storeKeys st
  · simpa [hm] using h
  · simp only [hm, if_false]
    rw [List.nodup_append]
    refine ⟨h, List.nodup_singleton k, ?_⟩
    intro a ha hb
    simp at hb
    subst hb
    exact hm ha

lemma storeWF_objectAssign (st inc : Store) (h : storeWF st) :
    storeWF (objectAssign st inc) := by
  induction inc generalizing st with
  | nil => simpa [objectAssign] using h
  | cons e rest ih =>
      simp only [objectAssign, List.foldl_cons] at *
      exact ih _ (storeWF_storeSet _ _ _ h)

lemma storeGet_none_iff (st : Store) (k : String) :
    storeGet st k = none ↔ k ∉ storeKeys st := by
  induction st with
  | nil => simp [storeGet, storeKeys]
  | cons e rest ih =>
      obtain ⟨k0, b0⟩ := e
      by_cases h : k0 = k
      · subst h
        simp [storeGet, storeKeys]
      · simp [storeGet, storeKeys, h, ih, Ne.symm h]

lemma storeGet_objectAssign_not_mem (st inc : Store) (k : String)
    (hk : k ∉ storeKeys inc) :
    storeGet (objectAssign st inc) k = storeGet st k := by
  induction inc generalizing st with
  | nil => simp [objectAssign]
  | cons e rest ih =>
      simp only [storeKeys, List.map_cons, List.mem_cons, not_or] at hk
      simp only [objectAssign, List.foldl_cons] at *
      rw [ih _ hk.2]
      exact storeGet_storeSet_other _ _ _ _ (fun he => hk.1 he.symm)

lemma storeGet_objectAssign_mem (st inc : Store) (hinc : storeWF inc)
    (k : String) (b : Broadcast) (h : storeGet inc k = some b) :
    storeGet (objectAssign st inc) k = some b := by
  induction inc generalizing st with
  | nil => simp [storeGet] at h
  | cons e rest ih =>
      obtain ⟨k0, b0⟩ := e
      simp only [storeWF, storeKeys, List.map_cons, List.nodup_cons] at hinc
      simp only [objectAssign, List.foldl_cons]
      by_cases hk : k0 = k
      · subst hk
        simp [storeGet] at h
        have hres := storeGet_objectAssign_not_mem (storeSet st k0 b0) rest k0 hinc.1
        simp only [objectAssign] at hres
        rw [hres, storeGet_storeSet_self, h]
      · have h' : storeGet rest k = some b := by
          simpa [storeGet, hk] using h
        simpa [objectAssign] using ih (storeSet st k0 b0) hinc.2 h'

end StoreLemmas

/-- C3: the store holds at most one broadcast per slot over any sequence
of merges; every incoming entry unconditionally overwrites the existing
entry for its slot (no timestamp guard); slots without an incoming entry
keep their existing broadcast. -/
theorem C3_merge_last_wins (st inc : Store) (incs : List Store)
    (hst : storeWF st) (hinc : storeWF inc) :
    storeWF (incs.foldl objectAssign st) ∧
    (∀ k b, storeGet inc k = some b → storeGet (objectAssign st inc) k = some b) ∧
    (∀ k, storeGet inc k = none → storeGet (objectAssign st inc) k = storeGet st k) := by
  refine ⟨?_, ?_, ?_⟩
  · induction incs generalizing st with
    | nil => simpa using hst
    | cons i rest ih =>
        simp only [List.foldl_cons]
        exact ih _ (storeWF_objectAssign _ _ hst)
  · intro k b h
    exact storeGet_objectAssign_mem st inc hinc k b h
  · intro k h
    exact storeGet_objectAssign_not_mem st inc k ((storeGet_none_iff inc k).1 h)

/-- Witness for C3: a later fetch for slot 08:00 with an older timestamp
still replaces the stored entry, the untouched 12:30 entry survives, and
keys stay unique. -/
theorem C3_merge_last_wins_witness :
    storeWF ([[("08:00", ⟨"Ekot 08:00", 50, "https://sr.se/b.mp3", "08:00"⟩)]].foldl
        objectAssign
        [("08:00", ⟨"Ekot 08:00", 100, "https://sr.se/a.mp3", "08:00"⟩),
         ("12:30", ⟨"Ekot 12:30", 90, "https://sr.se/c.mp3", "12:30"⟩)]) ∧
    (∀ k b,
      storeGet [("08:00", ⟨"Ekot 08:00", 50, "https://sr.se/b.mp3", "08:00"⟩)] k = some b →
      storeGet (objectAssign
        [("08:00", ⟨"Ekot 08:00", 100, "https://sr.se/a.mp3", "08:00"⟩),
         ("12:30", ⟨"Ekot 12:30", 90, "https://sr.se/c.mp3", "12:30"⟩)]
        [("08:00", ⟨"Ekot 08:00", 50, "https://sr.se/b.mp3", "08:00"⟩)]) k = some b) ∧
    (∀ k,
      storeGet [("08:00", ⟨"Ekot 08:00", 50, "https://sr.se/b.mp3", "08:00"⟩)] k = none →
      storeGet (objectAssign
        [("08:00", ⟨"Ekot 08:00", 100, "https://sr.se/a.mp3", "08:00"⟩),
         ("12:30", ⟨"Ekot 12:30", 90, "https://sr.se/c.mp3", "12:30"⟩)]
        [("08:00", ⟨"Ekot 08:00", 50, "https://sr.se/b.mp3", "08:00"⟩)]) k =
      storeGet [("08:00", ⟨"Ekot 08:00", 100, "https://sr.se/a.mp3", "08:00"⟩),
                ("12:30", ⟨"Ekot 12:30", 90, "https://sr.se/c.mp3", "12:30"⟩)] k) :=
  C3_merge_last_wins _ _ _ (by decide) (by decide)

section FindLatestLemmas

/-- The scan of findLatestBroadcast either leaves the accumulator in
place, with every timestamp in the remaining slots bounded by the running
maximum, or lands on a slot whose broadcast strictly beats the running
maximum, beats every earlier scanned slot strictly, and is not beaten by
any later slot. -/
lemma findLatestAux_spec (bs : Store) :
    ∀ (l : List Slot) (latest : Option String) (bestTs : Int),
      (findLatestAux bs l latest bestTs = latest ∧
        ∀ s ∈ l, ∀ b, storeGet bs s.time = some b → b.timestamp ≤ bestTs) ∨
      (∃ l1 s l2 b, l = l1 ++ s :: l2 ∧
        findLatestAux bs l latest bestTs = some s.time ∧
        storeGet bs s.time = some b ∧ bestTs < b.timestamp ∧
        (∀ s' ∈ l1, ∀ b', storeGet bs s'.time = some b' →
          b'.timestamp < b.timestamp) ∧
        (∀ s' ∈ l2, ∀ b', storeGet bs s'.time = some b' →
          b'.timestamp ≤ b.timestamp)) := by
  intro l
  induction l with
  | nil =>
      intro latest bestTs
      left
      simp [findLatestAux]
  | cons s0 rest ih =>
      intro latest bestTs
      cases hget : storeGet bs s0.time with
      | none =>
          have hstep : findLatestAux bs (s0 :: rest) latest bestTs
              = findLatestAux bs rest latest bestTs := by
            simp [findLatestAux, hget]
          rcases ih latest bestTs with ⟨hres, hall⟩ | ⟨l1, s, l2, b, hl, hres, hb, hlt, h1, h2⟩
          · left
            refine ⟨hstep.trans hres, ?_⟩
            intro s' hs' b' hb'
            rcases List.mem_cons.1 hs' with rfl | hs'
            · rw [hget] at hb'
              exact absurd hb' (by simp)
            · exact hall s' hs' b' hb'
          · right
            refine ⟨s0 :: l1, s, l2, b, by rw [hl, List.cons_append], hstep.trans hres, hb, hlt, ?_, h2⟩
            intro s' hs' b' hb'
            rcases List.mem_cons.1 hs' with rfl | hs'
            · rw [hget] at hb'
              exact absurd hb' (by simp)
            · exact h1 s' hs' b' hb'
      | some b0 =>
          by_cases hcmp : bestTs < b0.timestamp
          · have hstep : findLatestAux bs (s0 :: rest) latest bestTs
                = findLatestAux bs rest (some s0.time) b0.timestamp := by
              simp [findLatestAux, hget, hcmp]
            rcases ih (some s0.time) b0.timestamp with
              ⟨hres, hall⟩ | ⟨l1, s, l2, b, hl, hres, hb, hlt, h1, h2⟩
            · right
              exact ⟨[], s0, rest, b0, by simp, hstep.trans hres, hget, hcmp,
                by simp, hall⟩
            · right
              refine ⟨s0 :: l1, s, l2, b, by rw [hl, List.cons_append], hstep.trans hres, hb,
                lt_trans hcmp hlt, ?_, h2⟩
              intro s' hs' b' hb'
              rcases List.mem_cons.1 hs' with rfl | hs'
              · rw [hget] at hb'
                cases hb'
                exact hlt
              · exact h1 s' hs' b' hb'
          · have hstep : findLatestAux bs (s0 :: rest) latest bestTs
                = findLatestAux bs rest latest bestTs := by
              simp [findLatestAux, hget, hcmp]
            rcases ih latest bestTs with ⟨hres, hall⟩ | ⟨l1, s, l2, b, hl, hres, hb, hlt, h1, h2⟩
            · left
              refine ⟨hstep.trans hres, ?_⟩
              intro s' hs' b' hb'
              rcases List.mem_cons.1 hs' with rfl | hs'
              · rw [hget] at hb'
                cases hb'
                exact le_of_not_lt hcmp
              · exact hall s' hs' b' hb'
            · right
              refine ⟨s0 :: l1, s, l2, b, by rw [hl, List.cons_append], hstep.trans hres, hb, hlt, ?_, h2⟩
              intro s' hs' b' hb'
              rcases List.mem_cons.1 hs' with rfl | hs'
              · rw [hget] at hb'
                cases hb'
                exact lt_of_le_of_lt (le_of_not_lt hcmp) hlt
              · exact h1 s' hs' b' hb'

end FindLatestLemmas

/-- C1, counterexample: a non-empty store — its single broadcast sits at
the configured slot 08:00 and carries publish timestamp 0, the sentinel
value — yet findLatestBroadcast returns none instead of the label of the
slot holding the maximum timestamp, so the claim's universal description
fails as stated. -/
theorem C1_counterexample :
    (storeGet cexStoreZero "08:00").isSome = true ∧
    "08:00" ∈ CONFIG_SLOTS.map Slot.time ∧
    findLatestBroadcast cexStoreZero = none := by
  decide

/-- C1, amended: for every store whose broadcasts at the configured slots
all have strictly positive publish timestamps, findLatestBroadcast
returns none when no slot holds a broadcast, and otherwise returns the
label of the earliest-ordered slot whose broadcast has the maximum
publish timestamp — equal timestamps resolve to the earlier slot because
strict greater-than never replaces the first maximum found. -/
theorem C1_findLatest_max (bs : Store)
    (hpos : ∀ s ∈ CONFIG_SLOTS, ∀ b, storeGet bs s.time = some b → 0 < b.timestamp) :
    ((∀ s ∈ CONFIG_SLOTS, storeGet bs s.time = none) →
      findLatestBroadcast bs = none) ∧
    ((∃ s ∈ CONFIG_SLOTS, (storeGet bs s.time).isSome) →
      ∃ l1 s l2 b, CONFIG_SLOTS = l1 ++ s :: l2 ∧
        findLatestBroadcast bs = some s.time ∧
        storeGet bs s.time = some b ∧
        (∀ s' ∈ CONFIG_SLOTS, ∀ b', storeGet bs s'.time = some b' →
          b'.timestamp ≤ b.timestamp) ∧
        (∀ s' ∈ l1, ∀ b', storeGet bs s'.time = some b' →
          b'.timestamp < b.timestamp)) := by
  constructor
  · intro hempty
    rcases findLatestAux_spec bs CONFIG_SLOTS none 0 with
      ⟨hres, _⟩ | ⟨l1, s, l2, b, hl, _, hb, _, _, _⟩
    · exact hres
    · have hs : s ∈ CONFIG_SLOTS := by
        rw [hl]
        exact List.mem_append_right _ (List.mem_cons_self _ _)
      rw [hempty s hs] at hb
      exact absurd hb (by simp)
  · rintro ⟨s1, hs1, hsome⟩
    rcases findLatestAux_spec bs CONFIG_SLOTS none 0 with
      ⟨_, hall⟩ | ⟨l1, s, l2, b, hl, hres, hb, hlt, h1, h2⟩
    · rcases Option.isSome_iff_exists.1 hsome with ⟨b1, hb1⟩
      have := hall s1 hs1 b1 hb1
      have := hpos s1 hs1 b1 hb1
      omega
    · refine ⟨l1, s, l2, b, hl, hres, hb, ?_, h1⟩
      intro s' hs' b' hb'
      rw [hl] at hs'
      rcases List.mem_append.1 hs' with hmem | hmem
      · exact le_of_lt (h1 s' hmem b' hb')
      · rcases List.mem_cons.1 hmem with rfl | hmem
        · rw [hb] at hb'
          cases hb'
          exact le_refl _
        · exact h2 s' hmem b' hb'

/-- Witness for C1's amended theorem: broadcasts at 08:00 (ts 100) and
12:30 (ts 200) — findLatestBroadcast returns 12:30, the unique maximum. -/
theorem C1_findLatest_max_witness :
    ∃ l1 s l2 b, CONFIG_SLOTS = l1 ++ s :: l2 ∧
      findLatestBroadcast
        [("08:00", ⟨"Ekot 08:00", 100, "https://sr.se/a.mp3", "08:00"⟩),
         ("12:30", ⟨"Ekot 12:30", 200, "https://sr.se/c.mp3", "12:30"⟩)] = some s.time ∧
      storeGet
        [("08:00", ⟨"Ekot 08:00", 100, "https://sr.se/a.mp3", "08:00"⟩),
         ("12:30", ⟨"Ekot 12:30", 200, "https://sr.se/c.mp3", "12:30"⟩)] s.time = some b ∧
      (∀ s' ∈ CONFIG_SLOTS, ∀ b', storeGet
        [("08:00", ⟨"Ekot 08:00", 100, "https://sr.se/a.mp3", "08:00"⟩),
         ("12:30", ⟨"Ekot 12:30", 200, "https://sr.se/c.mp3", "12:30"⟩)] s'.time = some b' →
        b'.timestamp ≤ b.timestamp) ∧
      (∀ s' ∈ l1, ∀ b', storeGet
        [("08:00", ⟨"Ekot 08:00", 100, "https://sr.se/a.mp3", "08:00"⟩),
         ("12:30", ⟨"Ekot 12:30", 200, "https://sr.se/c.mp3", "12:30"⟩)] s'.time = some b' →
        b'.timestamp < b.timestamp) :=
  (C1_findLatest_max _ (by decide)).2 (by decide)

/-- C10: the running maximum starts at the sentinel 0 and is only
replaced on strict greater-than, so a non-empty store whose timestamps
are all at most 0 yields none, and a slot can be returned only when its
broadcast's timestamp is strictly positive. -/
theorem C10_sentinel_zero (bs : Store)
    (hne : ∃ s ∈ CONFIG_SLOTS, (storeGet bs s.time).isSome)
    (hnp : ∀ s ∈ CONFIG_SLOTS, ∀ b, storeGet bs s.time = some b → b.timestamp ≤ 0) :
    findLatestBroadcast bs = none ∧
    (∀ (bs' : Store) (t : String), findLatestBroadcast bs' = some t →
      ∃ b, storeGet bs' t = some b ∧ 0 < b.timestamp) := by
  constructor
  · rcases findLatestAux_spec bs CONFIG_SLOTS none 0 with
      ⟨hres, _⟩ | ⟨l1, s, l2, b, hl, _, hb, hlt, _, _⟩
    · exact hres
    · have hs : s ∈ CONFIG_SLOTS := by
        rw [hl]
        exact List.mem_append_right _ (List.mem_cons_self _ _)
      have := hnp s hs b hb
      omega
  · intro bs' t ht
    rcases findLatestAux_spec bs' CONFIG_SLOTS none 0 with
      ⟨hres, _⟩ | ⟨l1, s, l2, b, hl, hres, hb, hlt, _, _⟩
    · rw [findLatestBroadcast, hres] at ht
      exact absurd ht (by simp)
    · rw [findLatestBroadcast, hres] at ht
      cases ht
      exact ⟨b, hb, hlt⟩

/-- Witness for C10: the store holding only a timestamp-0 broadcast at
08:00 is non-empty with all timestamps at most 0, and findLatestBroadcast
returns none on it. -/
theorem C10_sentinel_zero_witness :
    findLatestBroadcast cexStoreZero = none ∧
    (∀ (bs' : Store) (t : String), findLatestBroadcast bs' = some t →
      ∃ b, storeGet bs' t = some b ∧ 0 < b.timestamp) :=
  C10_sentinel_zero cexStoreZero (by decide) (by decide)

section PollIntervalLemmas

/-- The loop of calculatePollInterval agrees, slot list by slot list, with
the first-qualifying-slot reading of the spec. -/
lemma pollIntervalAux_eq_spec (cm : Int) (bs : Store) :
    ∀ l : List Slot,
      pollIntervalAux cm bs l = (l.findSome? (slotTier cm bs)).getD POLL_IDLE := by
  intro l
  induction l with
  | nil => simp [pollIntervalAux]
  | cons s rest ih =>
      cases hget : storeGet bs s.time with
      | some b => simp [pollIntervalAux, slotTier, hget, List.findSome?_cons, ih]
      | none =>
          simp only [pollIntervalAux, slotTier, hget, List.findSome?_cons,
            Option.isNone_none, Option.isSome_none, if_true, Bool.false_eq_true,
            if_false]
          split_ifs <;> simp [ih]

end PollIntervalLemmas

/-- C2: calculatePollInterval is exactly the spec's computeInterval — the
first slot in configured order whose broadcast is absent and whose minute
difference lands in the active window gives the ACTIVE interval, in the
extended window the EXTENDED interval, slots with a broadcast or outside
both windows are passed over, and with no qualifying slot the result is
IDLE; in particular with the 08:00 slot absent (pollStart 08:20) the
result is ACTIVE at 08:25, EXTENDED at 08:35 and IDLE at 08:55. -/
theorem C2_computeInterval (now : Nat × Nat) (bs : Store) :
    calculatePollInterval now bs = computeIntervalSpec now bs ∧
    calculatePollInterval (8, 25) [] = POLL_ACTIVE ∧
    calculatePollInterval (8, 35) [] = POLL_EXTENDED ∧
    calculatePollInterval (8, 55) [] = POLL_IDLE :=
  ⟨pollIntervalAux_eq_spec _ _ _, by decide, by decide, by decide⟩

/-- C4: when a date is stored and differs from today, checkDayChange
empties the store, clears the current slot, stamps today, and reports
true; a second check the same day reports false and changes nothing; when
the stored date equals today nothing changes and it reports false. -/
theorem C4_day_rollover (st : AppState) (d today : String)
    (hdate : st.lastFetchDate = some d) :
    (d ≠ today →
      (checkDayChange today st).2 = true ∧
      (checkDayChange today st).1.broadcasts = [] ∧
      (checkDayChange today st).1.currentSlot = none ∧
      (checkDayChange today st).1.lastFetchDate = some today ∧
      checkDayChange today (checkDayChange today st).1
        = ((checkDayChange today st).1, false)) ∧
    (d = today → checkDayChange today st = (st, false)) := by
  constructor
  · intro hne
    cases hA : st.audioFocusTimer <;>
      simp [checkDayChange, hdate, hne, resetForNewDay, stopPlayback,
        stopAudioFocusKeepAlive, hA]
  · intro heq
    subst heq
    simp [checkDayChange, hdate]

/-- Witness for C4: a state fetched on 2026-01-05 checked on 2026-01-06
resets exactly once; checked on 2026-01-05 it stays put. -/
theorem C4_day_rollover_witness :
    ("2026-01-05" ≠ "2026-01-06" →
      (checkDayChange "2026-01-06" demoPaused).2 = true ∧
      (checkDayChange "2026-01-06" demoPaused).1.broadcasts = [] ∧
      (checkDayChange "2026-01-06" demoPaused).1.currentSlot = none ∧
      (checkDayChange "2026-01-06" demoPaused).1.lastFetchDate = some "2026-01-06" ∧
      checkDayChange "2026-01-06" (checkDayChange "2026-01-06" demoPaused).1
        = ((checkDayChange "2026-01-06" demoPaused).1, false)) ∧
    ("2026-01-05" = "2026-01-06" →
      checkDayChange "2026-01-06" demoPaused = (demoPaused, false)) :=
  C4_day_rollover demoPaused "2026-01-05" "2026-01-06" (by decide)

/-- C6: a play request for a slot with no stored broadcast, or whose
broadcast has an empty audioUrl, surfaces the no-broadcast error and
returns the state exactly as it was. -/
theorem C6_no_broadcast_no_mutation (st : AppState) (slot : String) (ok : Bool)
    (h : storeGet st.broadcasts slot = none ∨
         ∃ b, storeGet st.broadcasts slot = some b ∧ b.audioUrl = "") :
    playBroadcast st slot ok = (st, some PErr.noBroadcast) := by
  rcases h with h | ⟨b, hb, hurl⟩
  · simp [playBroadcast, h]
  · simp [playBroadcast, hb, hurl]

/-- Witness for C6: requesting the absent 12:30 slot leaves the state
untouched and surfaces the error. -/
theorem C6_no_broadcast_no_mutation_witness :
    playBroadcast cexPlayState "12:30" true = (cexPlayState, some PErr.noBroadcast) :=
  C6_no_broadcast_no_mutation cexPlayState "12:30" true (Or.inl (by decide))

/-- C5, counterexample: from a stopped state holding a playable 08:00
broadcast, a play request whose promise rejects surfaces the error but
leaves the controller with currentSlot = 08:00 and a loaded source — it
does not transition to Stopped with the current slot cleared, contrary to
the claim. -/
theorem C5_counterexample :
    (playBroadcast cexPlayState "08:00" false).2 = some PErr.playbackRejected ∧
    (playBroadcast cexPlayState "08:00" false).1.currentSlot = some "08:00" ∧
    (playBroadcast cexPlayState "08:00" false).1.audioSrc ≠ "" := by
  decide

/-- C5, amended: when the AudioSurface rejects a play request — both for
play(slot) and for resume() — the controller surfaces a PlaybackError to
the caller but does not transition to Stopped: for play the newly
selected slot stays current with its source loaded, and for resume the
current slot, source and paused flag are left in place. -/
theorem C5_reject_surfaces_error_keeps_session (st : AppState) (slot : String)
    (b : Broadcast) (sOk : Bool)
    (hb : storeGet st.broadcasts slot = some b) (hurl : b.audioUrl ≠ "") :
    ((playBroadcast st slot false).2 = some PErr.playbackRejected ∧
     (playBroadcast st slot false).1.currentSlot = some slot ∧
     (playBroadcast st slot false).1.audioSrc = b.audioUrl) ∧
    (st.audioSrc ≠ "" → st.audioPaused = true →
      ((togglePlayPause st false sOk).2 = some PErr.playbackRejected ∧
       (togglePlayPause st false sOk).1.currentSlot = st.currentSlot ∧
       (togglePlayPause st false sOk).1.audioSrc = st.audioSrc ∧
       (togglePlayPause st false sOk).1.audioPaused = true)) := by
  constructor
  · cases hA : st.audioFocusTimer <;>
      simp [playBroadcast, hb, hurl, stopAudioFocusKeepAlive, hA]
  · intro hsrc hpaused
    cases hA : st.audioFocusTimer <;>
      simp [togglePlayPause, hsrc, hpaused, stopAudioFocusKeepAlive, hA]

/-- Witness for C5's amended theorem, at the stopped state holding the
playable 08:00 broadcast. -/
theorem C5_reject_surfaces_error_keeps_session_witness :
    ((playBroadcast cexPlayState "08:00" false).2 = some PErr.playbackRejected ∧
     (playBroadcast cexPlayState "08:00" false).1.currentSlot = some "08:00" ∧
     (playBroadcast cexPlayState "08:00" false).1.audioSrc = "https://sr.se/a.mp3") ∧
    (cexPlayState.audioSrc ≠ "" → cexPlayState.audioPaused = true →
      ((togglePlayPause cexPlayState false true).2 = some PErr.playbackRejected ∧
       (togglePlayPause cexPlayState false true).1.currentSlot = cexPlayState.currentSlot ∧
       (togglePlayPause cexPlayState false true).1.audioSrc = cexPlayState.audioSrc ∧
       (togglePlayPause cexPlayState false true).1.audioPaused = true)) :=
  C5_reject_surfaces_error_keeps_session cexPlayState "08:00"
    ⟨"Ekot 08:00", 100, "https://sr.se/a.mp3", "08:00"⟩ true (by decide) (by decide)

/-- C7: pausing while playing arms the keep-alive timer for
AUDIO_FOCUS_TIMEOUT (15 minutes); a resume before expiry cancels it, so
the expiry can no longer fire; and if instead the timer expires, the
firing forces a full stop — source unloaded, current slot cleared, focus
released (silence player stopped and unloaded), handle cleared. -/
theorem C7_pause_timer_lifecycle (st : AppState) (ok sOk ok2 sOk2 : Bool)
    (hsrc : st.audioSrc ≠ "") (hplay : st.audioPaused = false)
    (hT : st.audioFocusTimer = none) (hP : st.focusPending = []) :
    ((togglePlayPause st ok sOk).1.audioFocusTimer = some st.nextId ∧
     (togglePlayPause st ok sOk).1.focusPending = [(st.nextId, AUDIO_FOCUS_TIMEOUT)] ∧
     AUDIO_FOCUS_TIMEOUT = 15 * 60 * 1000) ∧
    ((togglePlayPause (togglePlayPause st ok sOk).1 ok2 sOk2).1.audioFocusTimer = none ∧
     (togglePlayPause (togglePlayPause st ok sOk).1 ok2 sOk2).1.focusPending = []) ∧
    ((stepEv (togglePlayPause st ok sOk).1 (.focusFire st.nextId)).currentSlot = none ∧
     (stepEv (togglePlayPause st ok sOk).1 (.focusFire st.nextId)).audioSrc = "" ∧
     (stepEv (togglePlayPause st ok sOk).1 (.focusFire st.nextId)).audioPaused = true ∧
     (stepEv (togglePlayPause st ok sOk).1 (.focusFire st.nextId)).audioFocusTimer = none ∧
     (stepEv (togglePlayPause st ok sOk).1 (.focusFire st.nextId)).focusPending = [] ∧
     (stepEv (togglePlayPause st ok sOk).1 (.focusFire st.nextId)).silenceSrc = "" ∧
     (stepEv (togglePlayPause st ok sOk).1 (.focusFire st.nextId)).silencePaused = true) := by
  have hpause : (togglePlayPause st ok sOk).1
      = startAudioFocusKeepAlive sOk { st with audioPaused := true } := by
    simp [togglePlayPause, hsrc, hplay]
  have harm : startAudioFocusKeepAlive sOk { st with audioPaused := true }
      = { st with audioPaused := true,
                  silenceSrc := "assets/silence.wav", silencePaused := !sOk,
                  audioFocusTimer := some st.nextId,
                  focusPending := [(st.nextId, AUDIO_FOCUS_TIMEOUT)],
                  nextId := st.nextId + 1 } := by
    simp [startAudioFocusKeepAlive, stopAudioFocusKeepAlive, hT, hP]
  rw [hpause, harm]
  refine ⟨⟨rfl, rfl, rfl⟩, ?_, ?_⟩
  · constructor <;>
      simp [togglePlayPause, hsrc, stopAudioFocusKeepAlive]
  · refine ⟨?_, ?_, ?_, ?_, ?_, ?_, ?_⟩ <;>
      simp [stepEv, stopPlayback, stopAudioFocusKeepAlive]

/-- Witness for C7, at the concrete playing state demoPlaying. -/
theorem C7_pause_timer_lifecycle_witness :
    ((togglePlayPause demoPlaying true true).1.audioFocusTimer = some demoPlaying.nextId ∧
     (togglePlayPause demoPlaying true true).1.focusPending
        = [(demoPlaying.nextId, AUDIO_FOCUS_TIMEOUT)] ∧
     AUDIO_FOCUS_TIMEOUT = 15 * 60 * 1000) ∧
    ((togglePlayPause (togglePlayPause demoPlaying true true).1 true true).1.audioFocusTimer
        = none ∧
     (togglePlayPause (togglePlayPause demoPlaying true true).1 true true).1.focusPending
        = []) ∧
    ((stepEv (togglePlayPause demoPlaying true true).1
        (.focusFire demoPlaying.nextId)).currentSlot = none ∧
     (stepEv (togglePlayPause demoPlaying true true).1
        (.focusFire demoPlaying.nextId)).audioSrc = "" ∧
     (stepEv (togglePlayPause demoPlaying true true).1
        (.focusFire demoPlaying.nextId)).audioPaused = true ∧
     (stepEv (togglePlayPause demoPlaying true true).1
        (.focusFire demoPlaying.nextId)).audioFocusTimer = none ∧
     (stepEv (togglePlayPause demoPlaying true true).1
        (.focusFire demoPlaying.nextId)).focusPending = [] ∧
     (stepEv (togglePlayPause demoPlaying true true).1
        (.focusFire demoPlaying.nextId)).silenceSrc = "" ∧
     (stepEv (togglePlayPause demoPlaying true true).1
        (.focusFire demoPlaying.nextId)).silencePaused = true) :=
  C7_pause_timer_lifecycle demoPlaying true true true true
    (by decide) (by decide) (by decide) (by decide)

section InvariantLemmas

lemma TInv_mono {pend : List (Nat × Nat)} {handle : Option Nat} {n1 n2 : Nat}
    (h : TInv pend handle n1) (hle : n1 ≤ n2) : TInv pend handle n2 := by
  rcases h with hp | ⟨h0, d, hp, hh, hlt⟩
  · exact Or.inl hp
  · exact Or.inr ⟨h0, d, hp, hh, lt_of_lt_of_le hlt hle⟩

lemma stopKA_eq (st : AppState)
    (h : TInv st.focusPending st.audioFocusTimer st.nextId) :
    stopAudioFocusKeepAlive st
      = { st with focusPending := [], audioFocusTimer := none,
                  silencePaused := true, silenceSrc := "" } := by
  rcases h with hp | ⟨h0, d, hp, hh, _⟩
  · cases hA : st.audioFocusTimer with
    | none => simp [stopAudioFocusKeepAlive, hA, hp]
    | some a => simp [stopAudioFocusKeepAlive, hA, hp]
  · simp [stopAudioFocusKeepAlive, hh, hp]

lemma startKA_eq (sOk : Bool) (st : AppState)
    (h : TInv st.focusPending st.audioFocusTimer st.nextId) :
    startAudioFocusKeepAlive sOk st
      = { st with silenceSrc := "assets/silence.wav", silencePaused := !sOk,
                  audioFocusTimer := some st.nextId,
                  focusPending := [(st.nextId, AUDIO_FOCUS_TIMEOUT)],
                  nextId := st.nextId + 1 } := by
  unfold startAudioFocusKeepAlive
  rw [stopKA_eq st h]
  simp

lemma stopPlayback_eq (st : AppState)
    (h : TInv st.focusPending st.audioFocusTimer st.nextId) :
    stopPlayback st
      = { st with focusPending := [], audioFocusTimer := none,
                  silencePaused := true, silenceSrc := "",
                  audioPaused := true, audioSrc := "", currentSlot := none } := by
  unfold stopPlayback
  rw [stopKA_eq st h]

lemma schedulePoll_eq (now : Nat × Nat) (st : AppState)
    (h : TInv st.pollPending st.pollTimer st.nextId) :
    schedulePoll now st
      = { st with pollTimer := some st.nextId,
                  pollPending := [(st.nextId, calculatePollInterval now st.broadcasts)],
                  nextId := st.nextId + 1 } := by
  rcases h with hp | ⟨h0, d, hp, hh, _⟩
  · cases hA : st.pollTimer with
    | none => simp [schedulePoll, hA, hp]
    | some a => simp [schedulePoll, hA, hp]
  · simp [schedulePoll, hh, hp]

lemma Inv_stopKA (st : AppState) (h : Inv st) :
    Inv (stopAudioFocusKeepAlive st) := by
  rcases h with ⟨hF, hTp, hTf⟩
  rw [stopKA_eq st hTf]
  exact ⟨fun hs => by simp at hs, hTp, Or.inl rfl⟩

lemma Inv_stopPlayback (st : AppState) (h : Inv st) : Inv (stopPlayback st) := by
  rcases h with ⟨hF, hTp, hTf⟩
  rw [stopPlayback_eq st hTf]
  exact ⟨fun hs => by simp at hs, hTp, Or.inl rfl⟩

lemma Inv_schedulePoll (now : Nat × Nat) (st : AppState) (h : Inv st) :
    Inv (schedulePoll now st) := by
  rcases h with ⟨hF, hTp, hTf⟩
  rw [schedulePoll_eq now st hTp]
  refine ⟨fun hs => hF hs, ?_, TInv_mono hTf (Nat.le_succ _)⟩
  exact Or.inr ⟨st.nextId, _, rfl, rfl, Nat.lt_succ_self _⟩

lemma Inv_playBroadcast (st : AppState) (slot : String) (ok : Bool) (h : Inv st) :
    Inv (playBroadcast st slot ok).1 := by
  cases hg : storeGet st.broadcasts slot with
  | none =>
      have hrw : (playBroadcast st slot ok).1 = st := by simp [playBroadcast, hg]
      rw [hrw]; exact h
  | some b =>
      by_cases hu : b.audioUrl = ""
      · have hrw : (playBroadcast st slot ok).1 = st := by simp [playBroadcast, hg, hu]
        rw [hrw]; exact h
      · rcases h with ⟨hF, hTp, hTf⟩
        have hrw : (playBroadcast st slot ok).1
            = { stopAudioFocusKeepAlive st with
                currentSlot := some slot, audioSrc := b.audioUrl,
                audioPaused :=
                  if ok then false else (stopAudioFocusKeepAlive st).audioPaused } := by
          simp [playBroadcast, hg, hu]
        rw [hrw, stopKA_eq st hTf]
        exact ⟨fun hs => by simp at hs, hTp, Or.inl rfl⟩

lemma Inv_togglePlayPause (st : AppState) (ok sOk : Bool) (h : Inv st) :
    Inv (togglePlayPause st ok sOk).1 := by
  by_cases hsrc : st.audioSrc = ""
  · cases hl : findLatestBroadcast st.broadcasts with
    | none =>
        have hrw : (togglePlayPause st ok sOk).1 = st := by
          simp [togglePlayPause, hsrc, hl]
        rw [hrw]; exact h
    | some slot =>
        have hrw : (togglePlayPause st ok sOk).1 = (playBroadcast st slot ok).1 := by
          simp [togglePlayPause, hsrc, hl]
        rw [hrw]; exact Inv_playBroadcast st slot ok h
  · rcases h with ⟨hF, hTp, hTf⟩
    cases hp : st.audioPaused with
    | true =>
        have hrw : (togglePlayPause st ok sOk).1
            = { stopAudioFocusKeepAlive st with
                audioPaused :=
                  if ok then false else (stopAudioFocusKeepAlive st).audioPaused } := by
          simp [togglePlayPause, hsrc, hp]
        rw [hrw, stopKA_eq st hTf]
        exact ⟨fun hs => by simp at hs, hTp, Or.inl rfl⟩
    | false =>
        have hrw : (togglePlayPause st ok sOk).1
            = startAudioFocusKeepAlive sOk { st with audioPaused := true } := by
          simp [togglePlayPause, hsrc, hp]
        rw [hrw, startKA_eq sOk { st with audioPaused := true } hTf]
        refine ⟨fun _ => ⟨hsrc, rfl⟩, TInv_mono hTp (Nat.le_succ _), ?_⟩
        exact Or.inr ⟨st.nextId, AUDIO_FOCUS_TIMEOUT, rfl, rfl, Nat.lt_succ_self _⟩

lemma Inv_checkDayChange (today : String) (st : AppState) (h : Inv st) :
    Inv (checkDayChange today st).1 ∧
    (checkDayChange today st).1.nextId = st.nextId ∧
    (checkDayChange today st).1.pollPending = st.pollPending ∧
    (checkDayChange today st).1.pollTimer = st.pollTimer := by
  rcases h with ⟨hF, hTp, hTf⟩
  cases hd : st.lastFetchDate with
  | none =>
      have hrw : (checkDayChange today st).1 = st := by simp [checkDayChange, hd]
      rw [hrw]
      exact ⟨⟨hF, hTp, hTf⟩, rfl, rfl, rfl⟩
  | some d =>
      by_cases hne : d = today
      · have hrw : (checkDayChange today st).1 = st := by
          simp [checkDayChange, hd, hne]
        rw [hrw]
        exact ⟨⟨hF, hTp, hTf⟩, rfl, rfl, rfl⟩
      · have hrw : (checkDayChange today st).1 = resetForNewDay today st := by
          simp [checkDayChange, hd, hne]
        rw [hrw]
        unfold resetForNewDay
        rw [stopPlayback_eq
          { st with broadcasts := ([] : Store), currentSlot := none,
                    lastFetchDate := some today } hTf]
        exact ⟨⟨fun hs => by simp at hs, hTp, Or.inl rfl⟩, rfl, rfl, rfl⟩

lemma Inv_updateBroadcasts (today : String) (fetched : Option Store)
    (st : AppState) (h : Inv st) :
    Inv (updateBroadcasts today fetched st) ∧
    (updateBroadcasts today fetched st).nextId = st.nextId ∧
    (updateBroadcasts today fetched st).pollPending = st.pollPending ∧
    (updateBroadcasts today fetched st).pollTimer = st.pollTimer := by
  obtain ⟨hI, hn, hp, ht⟩ := Inv_checkDayChange today st h
  cases fetched with
  | none => exact ⟨hI, hn, hp, ht⟩
  | some inc =>
      rcases hI with ⟨hF, hTp, hTf⟩
      have hrw : updateBroadcasts today (some inc) st
          = { (checkDayChange today st).1 with
              broadcasts := objectAssign (checkDayChange today st).1.broadcasts inc,
              lastFetchDate := some today } := by
        simp [updateBroadcasts]
      rw [hrw]
      exact ⟨⟨hF, hTp, hTf⟩, hn, hp, ht⟩

lemma Inv_stepEv (st : AppState) (e : Ev) (h : Inv st) : Inv (stepEv st e) := by
  cases e with
  | playIntent slot ok => exact Inv_playBroadcast st slot ok h
  | toggle ok sOk => exact Inv_togglePlayPause st ok sOk h
  | stopIntent => exact Inv_stopPlayback st h
  | audioError => exact Inv_stopPlayback st h
  | ended =>
      by_cases hc : st.audioSrc ≠ "" ∧ st.audioPaused = false
      · rcases h with ⟨hF, hTp, hTf⟩
        have hrw : stepEv st .ended
            = { st with currentSlot := none, audioPaused := true } := by
          simp [stepEv, hc]
        rw [hrw]
        exact ⟨fun hs => ⟨(hF hs).1, rfl⟩, hTp, hTf⟩
      · have hrw : stepEv st .ended = st := by simp [stepEv, hc]
        rw [hrw]; exact h
  | focusFire k =>
      by_cases hc : st.focusPending.any (fun x => x.1 = k) = true
      · rcases h with ⟨hF, hTp, hTf⟩
        rcases hTf with hp | ⟨h0, d, hp, hh, hlt⟩
        · rw [hp] at hc
          simp at hc
        · have hk : h0 = k := by
            rw [hp] at hc
            simpa using hc
          subst hk
          have hfil : st.focusPending.filter (fun x => x.1 ≠ h0) = [] := by
            rw [hp]
            simp
          have hrw : stepEv st (.focusFire h0)
              = stopPlayback (stopAudioFocusKeepAlive
                  { st with focusPending :=
                      st.focusPending.filter (fun x => x.1 ≠ h0) }) := by
            simp [stepEv, hc]
          rw [hrw]
          refine Inv_stopPlayback _ (Inv_stopKA _ ⟨hF, hTp, ?_⟩)
          exact Or.inl hfil
      · have hrw : stepEv st (.focusFire k) = st := by simp [stepEv, hc]
        rw [hrw]; exact h
  | pollFire k today fetched now =>
      by_cases hc : st.pollPending.any (fun x => x.1 = k) = true
      · rcases h with ⟨hF, hTp, hTf⟩
        rcases hTp with hp | ⟨h0, d, hp, hh, hlt⟩
        · rw [hp] at hc
          simp at hc
        · have hk : h0 = k := by
            rw [hp] at hc
            simpa using hc
          subst hk
          have hfil : st.pollPending.filter (fun x => x.1 ≠ h0) = [] := by
            rw [hp]
            simp
          have hrw : stepEv st (.pollFire h0 today fetched now)
              = schedulePoll now (updateBroadcasts today fetched
                  { st with pollPending :=
                      st.pollPending.filter (fun x => x.1 ≠ h0) }) := by
            simp [stepEv, hc]
          have hM : Inv { st with pollPending :=
              st.pollPending.filter (fun x => x.1 ≠ h0) } :=
            ⟨hF, Or.inl hfil, hTf⟩
          rw [hrw]
          exact Inv_schedulePoll now _
            (Inv_updateBroadcasts today fetched _ hM).1
      · have hrw : stepEv st (.pollFire k today fetched now) = st := by
          simp [stepEv, hc]
        rw [hrw]; exact h
  | dayTick today fetched =>
      obtain ⟨hI, _, _, _⟩ := Inv_checkDayChange today st h
      by_cases hc : (checkDayChange today st).2 = true
      · have hrw : stepEv st (.dayTick today fetched)
            = updateBroadcasts today fetched (checkDayChange today st).1 := by
          simp [stepEv, hc]
        rw [hrw]
        exact (Inv_updateBroadcasts today fetched _ hI).1
      · have hrw : stepEv st (.dayTick today fetched)
            = (checkDayChange today st).1 := by
          simp [stepEv, hc]
        rw [hrw]; exact hI

lemma Inv_initState (today : String) (fetched : Option Store) (now : Nat × Nat) :
    Inv (initState today fetched now) := by
  unfold initState
  refine Inv_schedulePoll now _ (Inv_updateBroadcasts today fetched _ ?_).1
  exact ⟨fun hs => by simp at hs, Or.inl rfl, Or.inl rfl⟩

lemma Inv_reachable (st : AppState) (h : Reachable st) : Inv st := by
  induction h with
  | boot today fetched now => exact Inv_initState today fetched now
  | next e _ ih => exact Inv_stepEv _ e ih

end InvariantLemmas

/-- C8: in every reachable state the audio-focus timer handle is set only
while the playback status is Paused — never while Playing or Stopped. -/
theorem C8_focus_timer_only_while_paused (st : AppState) (hr : Reachable st)
    (harm : st.audioFocusTimer.isSome = true) :
    status st = PStatus.paused := by
  obtain ⟨hF, _, _⟩ := Inv_reachable st hr
  obtain ⟨hsrc, hpaused⟩ := hF harm
  simp [status, hsrc, hpaused]

/-- Witness for C8: the reachable state demoPaused has the focus timer
armed and its status is Paused. -/
theorem C8_focus_timer_only_while_paused_witness :
    status demoPaused = PStatus.paused :=
  C8_focus_timer_only_while_paused demoPaused
    (Reachable.next (Ev.toggle true true)
      (Reachable.next (Ev.playIntent "08:00" true)
        (Reachable.boot "2026-01-05" (some demoFetched) (8, 30))))
    (by decide)

/-- C9: in every reachable state at most one instance of the poll timer
and at most one instance of the focus timer is pending (arming cancels
the previous instance of the same kind); after a poll-timer firing the
fired instance is no longer pending; and a focus-timer firing leaves the
handle cleared with nothing pending. -/
theorem C9_timers_single_instance (st : AppState) (hr : Reachable st) :
    (st.pollPending.length ≤ 1 ∧ st.focusPending.length ≤ 1) ∧
    (∀ k today fetched now,
      ∀ e ∈ (stepEv st (.pollFire k today fetched now)).pollPending, e.1 ≠ k) ∧
    (∀ k, st.focusPending.any (fun x => x.1 = k) = true →
      (stepEv st (.focusFire k)).audioFocusTimer = none ∧
      (stepEv st (.focusFire k)).focusPending = []) := by
  obtain ⟨hF, hTp, hTf⟩ := Inv_reachable st hr
  refine ⟨⟨?_, ?_⟩, ?_, ?_⟩
  · rcases hTp with hp | ⟨h0, d, hp, _, _⟩ <;> simp [hp]
  · rcases hTf with hp | ⟨h0, d, hp, _, _⟩ <;> simp [hp]
  · intro k today fetched now e he
    by_cases hc : st.pollPending.any (fun x => x.1 = k) = true
    · rcases hTp with hp | ⟨h0, d, hp, hh, hlt⟩
      · rw [hp] at hc
        simp at hc
      · have hk : h0 = k := by
          rw [hp] at hc
          simpa using hc
        subst hk
        have hfil : st.pollPending.filter (fun x => x.1 ≠ h0) = [] := by
          rw [hp]
          simp
        have hrw : stepEv st (.pollFire h0 today fetched now)
            = schedulePoll now (updateBroadcasts today fetched
                { st with pollPending :=
                    st.pollPending.filter (fun x => x.1 ≠ h0) }) := by
          simp [stepEv, hc]
        have hM : Inv { st with pollPending :=
            st.pollPending.filter (fun x => x.1 ≠ h0) } :=
          ⟨hF, Or.inl hfil, hTf⟩
        obtain ⟨hI2, hn2, hp2, ht2⟩ := Inv_updateBroadcasts today fetched
          { st with pollPending := st.pollPending.filter (fun x => x.1 ≠ h0) } hM
        rw [hrw, schedulePoll_eq now _ hI2.2.1] at he
        have he' := List.mem_singleton.1 he
        subst he'
        intro hek
        rw [hn2] at hek
        simp at hek
        omega
    · have hrw : stepEv st (.pollFire k today fetched now) = st := by
        simp [stepEv, hc]
      rw [hrw] at he
      intro hek
      apply hc
      simp only [List.any_eq_true]
      exact ⟨e, he, by simp [hek]⟩
  · intro k hc
    rcases hTf with hp | ⟨h0, d, hp, hh, hlt⟩
    · rw [hp] at hc
      simp at hc
    · have hk : h0 = k := by
        rw [hp] at hc
        simpa using hc
      subst hk
      have hfil : st.focusPending.filter (fun x => x.1 ≠ h0) = [] := by
        rw [hp]
        simp
      have hrw : stepEv st (.focusFire h0)
          = stopPlayback (stopAudioFocusKeepAlive
              { st with focusPending :=
                  st.focusPending.filter (fun x => x.1 ≠ h0) }) := by
        simp [stepEv, hc]
      rw [hrw,
        stopKA_eq { st with focusPending :=
          st.focusPending.filter (fun x => x.1 ≠ h0) } (Or.inl hfil),
        stopPlayback_eq _ (Or.inl rfl)]
      exact ⟨rfl, rfl⟩

/-- Witness for C9, at the reachable state demoPaused. -/
theorem C9_timers_single_instance_witness :
    (demoPaused.pollPending.length ≤ 1 ∧ demoPaused.focusPending.length ≤ 1) ∧
    (∀ k today fetched now,
      ∀ e ∈ (stepEv demoPaused (.pollFire k today fetched now)).pollPending, e.1 ≠ k) ∧
    (∀ k, demoPaused.focusPending.any (fun x => x.1 = k) = true →
      (stepEv demoPaused (.focusFire k)).audioFocusTimer = none ∧
      (stepEv demoPaused (.focusFire k)).focusPending = []) :=
  C9_timers_single_instance demoPaused
    (Reachable.next (Ev.toggle true true)
      (Reachable.next (Ev.playIntent "08:00" true)
        (Reachable.boot "2026-01-05" (some demoFetched) (8, 30))))

end Ekot
